import Mathlib

/-!
Verification of the translation-relay bot: a shallow embedding of
`services/cache_service.py`, `services/database_service.py`,
`services/translation_service.py` and `handlers/message_handler.py`,
with theorems checking the specification's claims about them.

Modelling conventions:
* Python `dict` / `collections.OrderedDict` values are association lists
  `List (Nat × β)` in insertion order (head = oldest entry); dictionary
  update keeps the position of an existing key and appends a new one.
* `time.time()` is an explicit `now : Nat` argument threaded through the
  operations that read the clock; language-detection confidences are
  rationals in place of Python floats.
* A Python function that can raise is embedded with an `Except` result;
  for `CacheService.set` the error value carries the state at the moment
  the exception escapes (`next(iter(...))` on an empty `OrderedDict`
  raises `StopIteration`).
* External collaborators (the Groq translation API, the Telegram
  `send_message` transport) are passed in as `Except`-valued outcomes;
  the handlers are deterministic in those outcomes.
-/

namespace TgRelay

/-! ### Python dictionaries as association lists -/

/-- Embedding of `d[k]` lookup on a Python dict represented as an
association list: the first pair whose key equals `k`, if any. -/
def dictGet {β : Type} : List (Nat × β) → Nat → Option β
  | [], _ => none
  | p :: rest, k => if p.1 = k then some p.2 else dictGet rest k

/-- Embedding of `d.pop(k, None)`: drop every pair whose key is `k`
(a dict holds each key at most once, so at most one pair is dropped in
reachable states). -/
def eraseKey {β : Type} : List (Nat × β) → Nat → List (Nat × β)
  | [], _ => []
  | p :: rest, k => if p.1 = k then eraseKey rest k else p :: eraseKey rest k

/-- Embedding of `d[k] = v` on a Python dict: replace in place when `k`
is present, append at the end (most recent position) when it is new. -/
def dictInsert {β : Type} (l : List (Nat × β)) (k : Nat) (v : β) : List (Nat × β) :=
  if (dictGet l k).isSome then
    l.map (fun p => if p.1 = k then (k, v) else p)
  else
    l ++ [(k, v)]

/-- The keys of an association list, in order. -/
def keys {β : Type} (l : List (Nat × β)) : List Nat :=
  l.map Prod.fst

/-- A well-formed dict holds each key at most once. -/
def NodupKeys {β : Type} (l : List (Nat × β)) : Prop :=
  (keys l).Nodup

instance instDecidableNodupKeys {β : Type} (l : List (Nat × β)) :
    Decidable (NodupKeys l) :=
  inferInstanceAs (Decidable (keys l).Nodup)

/-- Two dicts hold exactly the same keys (stated with bounded
quantifiers so that it is decidable on concrete states). -/
def KeyAgree {β γ : Type} (l : List (Nat × β)) (m : List (Nat × γ)) : Prop :=
  (∀ k ∈ keys l, k ∈ keys m) ∧ (∀ k ∈ keys m, k ∈ keys l)

instance instDecidableKeyAgree {β γ : Type} (l : List (Nat × β))
    (m : List (Nat × γ)) : Decidable (KeyAgree l m) :=
  inferInstanceAs (Decidable (_ ∧ _))

/-! ### Embedding of `services/cache_service.py` — `CacheService`

State: `self._cache` is an `OrderedDict` (head = oldest / least recently
used, tail = most recently used), `self._expiry` a plain dict of absolute
expiration timestamps. Values are a type parameter `α`. -/

structure CacheService (α : Type) where
  max_size : Nat
  expiration_seconds : Nat
  _cache : List (Nat × α)
  _expiry : List (Nat × Nat)
deriving DecidableEq

namespace CacheService

/-- Constructor `CacheService.__init__(max_size, expiration_seconds)`:
both dicts start empty. -/
def init (α : Type) (max_size expiration_seconds : Nat) : CacheService α :=
  ⟨max_size, expiration_seconds, [], []⟩

/-- Private helper `_remove(key)`: pops `key` from both dicts. -/
def _remove {α : Type} (st : CacheService α) (key : Nat) : CacheService α :=
  { st with _cache := eraseKey st._cache key,
            _expiry := eraseKey st._expiry key }

/-- Method `get(key)`: on a live hit, pops the entry and re-inserts it
at the most-recently-used end; on an expired hit, removes the entry
lazily; the liveness check is `time.time() < self._expiry.get(key, 0)`.
Returns the Python return value paired with the updated state. -/
def get {α : Type} (st : CacheService α) (now : Nat) (key : Nat) :
    Option α × CacheService α :=
  match dictGet st._cache key with
  | some value =>
    if now < (dictGet st._expiry key).getD 0 then
      (some value,
       { st with _cache := dictInsert (eraseKey st._cache key) key value })
    else
      (none, st._remove key)
  | none => (none, st)

/-- Method `set(key, value)`: removes any old entry for `key`, evicts the
oldest entry when `len(self._cache) >= self.max_size`, then inserts the
new entry with expiry `now + expiration_seconds`. `next(iter(self._cache))`
on an empty `OrderedDict` raises `StopIteration`: that outcome is the
`.error` case, carrying the state at the moment the exception escapes. -/
def set {α : Type} (st : CacheService α) (now : Nat) (key : Nat) (value : α) :
    Except (CacheService α) (CacheService α) :=
  let st1 := st._remove key
  if st.max_size ≤ st1._cache.length then
    match st1._cache.head? with
    | none => .error st1
    | some oldest =>
      let st2 := st1._remove oldest.1
      .ok { st2 with
              _cache := dictInsert st2._cache key value,
              _expiry := dictInsert st2._expiry key
                (now + st.expiration_seconds) }
  else
    .ok { st1 with
            _cache := dictInsert st1._cache key value,
            _expiry := dictInsert st1._expiry key
              (now + st.expiration_seconds) }

/-- The keys whose expiry strictly precedes `current_time`, in `_expiry`
order — the list comprehension in `cleanup` over `self._expiry.items()`
with the test `current_time > exp_time`. -/
def expiredKeys (expiry : List (Nat × Nat)) (current_time : Nat) : List Nat :=
  keys (expiry.filter (fun p => decide (p.2 < current_time)))

/-- Method `cleanup()`: removes every expired item; returns the count
removed paired with the updated state. -/
def cleanup {α : Type} (st : CacheService α) (now : Nat) :
    Nat × CacheService α :=
  let expired_keys := expiredKeys st._expiry now
  let st' := expired_keys.foldl (fun s k => s._remove k) st
  (expired_keys.length, st')

/-- Method `clear()`: empties both dicts. -/
def clear {α : Type} (st : CacheService α) : CacheService α :=
  { st with _cache := [], _expiry := [] }

/-- Method `size()`: `len(self._cache)`. -/
def size {α : Type} (st : CacheService α) : Nat :=
  st._cache.length

/-- One public cache operation, as issued by a client. -/
inductive Op (α : Type) where
  | get (now key : Nat)
  | set (now key : Nat) (value : α)
  | cleanup (now : Nat)
  | clear
deriving DecidableEq

/-- Run one public operation, keeping only the state. When `set` raises
(`StopIteration` with `max_size = 0`), the state at the raise is kept. -/
def step {α : Type} (st : CacheService α) (op : Op α) : CacheService α :=
  match op with
  | .get now key => (st.get now key).2
  | .set now key value =>
    match st.set now key value with
    | .ok st' => st'
    | .error st' => st'
  | .cleanup now => (st.cleanup now).2
  | .clear => st.clear

/-- Run a sequence of public operations. -/
def run {α : Type} (st : CacheService α) (ops : List (Op α)) :
    CacheService α :=
  ops.foldl step st

/-- Well-formedness of a cache state: the `OrderedDict` holds each key
once, and the entry count respects the configured bound. -/
def Good {α : Type} (st : CacheService α) : Prop :=
  NodupKeys st._cache ∧ st._cache.length ≤ st.max_size

/-- Either outcome of `set` (normal return or `StopIteration`), as kept
by `step`. -/
def setOutcome {α : Type} (st : CacheService α) (now key : Nat) (value : α) :
    CacheService α :=
  match st.set now key value with
  | .ok st' => st'
  | .error st' => st'

/-- The value dict and the expiry dict of a cache state hold exactly
the same keys. -/
def SameKeys {α : Type} (st : CacheService α) : Prop :=
  KeyAgree st._cache st._expiry

instance instDecidableSameKeys {α : Type} (st : CacheService α) :
    Decidable (SameKeys st) :=
  inferInstanceAs (Decidable (KeyAgree st._cache st._expiry))

end CacheService

/-! ### Embedding of `services/database_service.py` — `DatabaseService`

The `translated_messages` table is a list of rows in insertion order.
The table declares no UNIQUE constraint on `translated_message_id` (only
the autoincrement `id` primary key), so an INSERT fails only on an I/O
error, modelled by an explicit `ioError` flag. -/

structure StoredTranslation where
  translated_message_id : Nat
  original_message_id : Nat
  chat_id : Nat
  user_id : Nat
  original_language : String
  original_text : String
  translated_text : String
  timestamp : Nat
deriving DecidableEq

/-- Method `store_translation(...)`: INSERT of a fresh row with
`timestamp = CURRENT_TIMESTAMP`; returns `True` on success and `False`
on a caught `sqlite3.Error` (the `ioError` flag), never raises. -/
def store_translation (db : List StoredTranslation) (ioError : Bool)
    (now : Nat)
    (translated_message_id original_message_id chat_id user_id : Nat)
    (original_language original_text translated_text : String) :
    Bool × List StoredTranslation :=
  if ioError then
    (false, db)
  else
    (true, db ++ [⟨translated_message_id, original_message_id, chat_id,
      user_id, original_language, original_text, translated_text, now⟩])

/-- Method `get_translation_by_msg_id(translated_message_id)`: SELECT
with `WHERE translated_message_id = ?` and `fetchone()` — the first
matching row, or `None`. -/
def get_translation_by_msg_id (db : List StoredTranslation)
    (translated_message_id : Nat) : Option StoredTranslation :=
  db.find? (fun r => r.translated_message_id == translated_message_id)

/-- Number of bindable parameters sqlite sees in the DELETE statement of
`delete_old_translations`. Its SQL text places the sole question mark
inside the quoted modifier literal (the term spelled dash, question
mark, space, days between single quotes), where it is ordinary text, so
the prepared statement has zero parameter slots. -/
def deleteQueryParamSlots : Nat := 0

/-- Seconds per day, the unit of the `days` retention window. -/
def secondsPerDay : Nat := 86400

/-- The `cursor.execute` call of the DELETE with the single supplied
binding `(days,)`: sqlite raises `ProgrammingError` when the number of
supplied bindings differs from the statement's parameter count;
otherwise the statement would delete every row whose timestamp precedes
`now` minus `days` days and report the number of rows removed. -/
def executeDeleteOld (db : List StoredTranslation) (now days : Nat) :
    Except String (Nat × List StoredTranslation) :=
  if deleteQueryParamSlots = 1 then
    let kept := db.filter
      (fun r => decide (now - days * secondsPerDay ≤ r.timestamp))
    .ok (db.length - kept.length, kept)
  else
    .error "ProgrammingError: incorrect number of bindings supplied"

/-- Method `delete_old_translations(days=7)`: runs the DELETE inside
`try`, catches `sqlite3.Error` (of which `ProgrammingError` is a
subclass) and returns 0 with the table untouched in that case. -/
def delete_old_translations (db : List StoredTranslation) (now : Nat)
    (days : Nat) : Nat × List StoredTranslation :=
  match executeDeleteOld db now days with
  | .ok r => r
  | .error _ => (0, db)

/-- Reference semantics for the claim about `delete_old_translations`:
remove exactly the rows whose timestamp precedes `now` minus `days`
days and return how many were removed. Stated from the spec sentence,
for comparison with the embedded code. -/
def deleteOlderThanSpec (db : List StoredTranslation) (now days : Nat) :
    Nat × List StoredTranslation :=
  let kept := db.filter
    (fun r => decide (now - days * secondsPerDay ≤ r.timestamp))
  (db.length - kept.length, kept)

/-! ### Embedding of `services/translation_service.py` — `TranslationService` -/

/-- Method `translate_text(text, source_language, target_language)`:
returns the input unchanged when source equals target; otherwise calls
the Groq chat-completion API (its outcome is the `api` argument) inside
`try`, and on any exception returns the sentinel string
`[Translation failed: e]` instead of raising. -/
def translate_text (api : Except String String)
    (text source_language target_language : String) : String :=
  if source_language = target_language then
    text
  else
    match api with
    | .ok translated => translated
    | .error e => "[Translation failed: " ++ e ++ "]"

/-! ### Embedding of `handlers/message_handler.py` -/

/-- The `cache_data` dict built in `handle_message` (also the shape of
the translation info the reply path reads: it only ever accesses the
keys `original_message_id`, `original_language` and `chat_id`). -/
structure TranslationInfo where
  original_message_id : Nat
  original_language : String
  chat_id : Nat
  user_id : Nat
  original_text : String
  translated_text : String
deriving DecidableEq

/-- Projection of a database row to the translation info the reply path
reads (the row dict additionally carries `translated_message_id`, which
no handler reads). -/
def rowInfo (r : StoredTranslation) : TranslationInfo :=
  ⟨r.original_message_id, r.original_language, r.chat_id, r.user_id,
   r.original_text, r.translated_text⟩

/-- An inbound Telegram text message together with the langdetect
result on its text (`detect` and `detect_langs(...)[0].prob`). -/
structure InboundMsg where
  message_id : Nat
  chat_id : Nat
  user_id : Nat
  text : String
  lang_code : String
  confidence : ℚ
deriving DecidableEq

/-- One `context.bot.send_message` call that completed. -/
structure Outbound where
  chat_id : Nat
  text : String
  reply_to_message_id : Nat
  disable_notification : Bool
deriving DecidableEq

/-- The pieces of `context.bot_data` and module state that
`handle_message` consults. -/
structure BotEnv where
  threshold : ℚ
  db_present : Bool
  cache_present : Bool
  dbError : Bool
  db : List StoredTranslation
  cache : CacheService TranslationInfo
deriving DecidableEq

/-- Observable outcome of one `handle_message` run: which collaborators
were invoked, the messages sent, the final store and cache states, and
the text of the except-branch apology reply if it fired (the source
formats it around the exception text; only the exception text is kept
here). -/
structure HandleResult where
  translatorCalled : Bool
  sent : List Outbound
  storeAttempted : Bool
  storeSucceeded : Bool
  cachePut : Bool
  db : List StoredTranslation
  cache : CacheService TranslationInfo
  errorReply : Option String
deriving DecidableEq

/-- Handler `handle_message(update, context)` for non-reply messages,
lines 29–146 (the MongoDB analytics block, lines 116–141, touches
neither the relay store nor the cache and is out of the claims to
check, so it is not modelled). `api` is the Groq call outcome, `send`
the `context.bot.send_message` outcome (its Telegram message id on
success). On `send` failure the except branch replies with the apology
message and nothing has been stored; a `StopIteration` escaping
`cache_service.set` would land in the same except branch. -/
def handle_message (env : BotEnv) (msg : InboundMsg)
    (api : Except String String) (send : Except String Nat) (now : Nat) :
    HandleResult :=
  if msg.lang_code ≠ "en" ∧ env.threshold ≤ msg.confidence then
    let translated_text := translate_text api msg.text msg.lang_code "en"
    match send with
    | .error e =>
      ⟨true, [], false, false, false, env.db, env.cache, some e⟩
    | .ok sent_message_id =>
      let out : Outbound := ⟨msg.chat_id, translated_text, msg.message_id, true⟩
      if env.db_present then
        match store_translation env.db env.dbError now sent_message_id
            msg.message_id msg.chat_id msg.user_id msg.lang_code msg.text
            translated_text with
        | (true, db') =>
          if env.cache_present then
            let cache_data : TranslationInfo :=
              ⟨msg.message_id, msg.lang_code, msg.chat_id, msg.user_id,
               msg.text, translated_text⟩
            match env.cache.set now sent_message_id cache_data with
            | .ok cache' => ⟨true, [out], true, true, true, db', cache', none⟩
            | .error cache' =>
              ⟨true, [out], true, true, false, db', cache',
               some "StopIteration"⟩
          else
            ⟨true, [out], true, true, false, db', env.cache, none⟩
        | (false, db') =>
          ⟨true, [out], true, false, false, db', env.cache, none⟩
      else
        ⟨true, [out], false, false, false, env.db, env.cache, none⟩
  else
    ⟨false, [], false, false, false, env.db, env.cache, none⟩

/-- The pieces of `context.bot_data` that the reply-path lookup
consults. -/
structure ReplyEnv where
  cache_present : Bool
  db_present : Bool
  cache : CacheService TranslationInfo
  db : List StoredTranslation
deriving DecidableEq

/-- Observable outcome of the reply-path record lookup: the resolved
info, the cache state afterwards, and call counts on the store lookup
and the cache backfill. -/
structure LookupResult where
  translation_info : Option TranslationInfo
  cache : CacheService TranslationInfo
  storeCalls : Nat
  cacheBackfills : Nat
deriving DecidableEq

/-- The record-resolution prefix of `handle_agent_reply`, lines
169–192: `if cache_service:` try the cache; **else** consult the
database, and inside that else-branch — where `cache_service` is known
falsy — sits the `if cache_service:` backfill guard, kept here exactly
as written. -/
def resolve_reply_record (env : ReplyEnv) (now replied_to_message_id : Nat) :
    LookupResult :=
  if env.cache_present then
    let r := env.cache.get now replied_to_message_id
    ⟨r.1, r.2, 0, 0⟩
  else
    if env.db_present then
      match get_translation_by_msg_id env.db replied_to_message_id with
      | some row =>
        if env.cache_present then
          ⟨some (rowInfo row),
           CacheService.setOutcome env.cache now replied_to_message_id
             (rowInfo row), 1, 1⟩
        else
          ⟨some (rowInfo row), env.cache, 1, 0⟩
      | none => ⟨none, env.cache, 1, 0⟩
    else
      ⟨none, env.cache, 0, 0⟩

/-- The reverse-path lookup the specification describes: cache first,
database exactly on a cache miss, backfill the cache on a database hit.
Stated from the spec sentences, for comparison with
`resolve_reply_record`. -/
def resolveReplyRecordSpec (env : ReplyEnv) (now replied_to_message_id : Nat) :
    LookupResult :=
  let r := env.cache.get now replied_to_message_id
  match r.1 with
  | some info => ⟨some info, r.2, 0, 0⟩
  | none =>
    match get_translation_by_msg_id env.db replied_to_message_id with
    | some row =>
      ⟨some (rowInfo row),
       CacheService.setOutcome r.2 now replied_to_message_id (rowInfo row),
       1, 1⟩
    | none => ⟨none, r.2, 1, 0⟩

/-! ### Concrete fixtures, used to evaluate the handlers at specific
inputs in the theorems below. -/

/-- An empty cache with the default production configuration
(`CACHE_MAX_SIZE = 100`, `CACHE_EXPIRATION_SECONDS = 1800`). -/
def sampleCache : CacheService TranslationInfo :=
  CacheService.init TranslationInfo 100 1800

/-- A Spanish inbound message detected at full confidence (the fixture
uses integer-valued rationals so that concrete runs reduce inside the
kernel). -/
def sampleMsgEs : InboundMsg := ⟨1, 7, 5, "hola", "es", 1⟩

/-- Bot state with both services present, a healthy database, and a
threshold the sample confidence clears. -/
def sampleEnv : BotEnv := ⟨0, true, true, false, [], sampleCache⟩

/-- Same bot state but with the database erroring on writes. -/
def sampleEnvDbFail : BotEnv := ⟨0, true, true, true, [], sampleCache⟩

/-- A stored translation row for forwarded message 42. -/
def sampleRow : StoredTranslation :=
  ⟨42, 2, 7, 5, "es", "hola necesito ayuda", "hello I need help", 0⟩

/-- Reply-path state: cache service present but empty, database holds
`sampleRow`. -/
def sampleReplyEnv : ReplyEnv := ⟨true, true, sampleCache, [sampleRow]⟩

/-- A row created at the epoch, far older than any retention window. -/
def oldRow : StoredTranslation := ⟨50, 3, 7, 5, "es", "hola", "hello", 0⟩

/-! ## Theorems

First the association-list toolbox, then well-formedness of the cache
under its public operations, then the claim theorems. -/

theorem keys_nil {β : Type} : keys ([] : List (Nat × β)) = [] := rfl

theorem keys_cons {β : Type} (p : Nat × β) (rest : List (Nat × β)) :
    keys (p :: rest) = p.1 :: keys rest := rfl

theorem keys_append {β : Type} (l l' : List (Nat × β)) :
    keys (l ++ l') = keys l ++ keys l' := by
  simp [keys]

theorem dictGet_eq_none_iff {β : Type} {l : List (Nat × β)} {k : Nat} :
    dictGet l k = none ↔ k ∉ keys l := by
  induction l with
  | nil => simp [dictGet, keys_nil]
  | cons p rest ih =>
    by_cases h : p.1 = k
    · subst h
      simp [dictGet, keys_cons]
    · rw [show dictGet (p :: rest) k = dictGet rest k by simp [dictGet, h],
        ih, keys_cons, List.mem_cons]
      constructor
      · intro hk hmem
        rcases hmem with hmem | hmem
        · exact h hmem.symm
        · exact hk hmem
      · intro hk hmem
        exact hk (Or.inr hmem)

theorem eraseKey_eq_self_of_not_mem {β : Type} {l : List (Nat × β)} {k : Nat}
    (h : k ∉ keys l) : eraseKey l k = l := by
  induction l with
  | nil => rfl
  | cons p rest ih =>
    rw [keys_cons, List.mem_cons] at h
    push_neg at h
    rw [eraseKey, if_neg (Ne.symm h.1), ih h.2]

theorem mem_keys_eraseKey {β : Type} {l : List (Nat × β)} {j k : Nat} :
    j ∈ keys (eraseKey l k) ↔ j ∈ keys l ∧ j ≠ k := by
  induction l with
  | nil => simp [eraseKey, keys_nil]
  | cons p rest ih =>
    by_cases h : p.1 = k
    · rw [eraseKey, if_pos h, ih, keys_cons, List.mem_cons]
      constructor
      · tauto
      · rintro ⟨hj | hj, hk⟩
        · exact absurd (h ▸ hj) hk
        · exact ⟨hj, hk⟩
    · rw [eraseKey, if_neg h, keys_cons, keys_cons, List.mem_cons,
        List.mem_cons, ih]
      constructor
      · rintro (hj | hj)
        · exact ⟨Or.inl hj, fun hk => h (hj ▸ hk ▸ rfl)⟩
        · tauto
      · rintro ⟨hj | hj, hk⟩
        · exact Or.inl hj
        · exact Or.inr ⟨hj, hk⟩

theorem not_mem_keys_eraseKey {β : Type} (l : List (Nat × β)) (k : Nat) :
    k ∉ keys (eraseKey l k) := by
  intro h
  exact (mem_keys_eraseKey.mp h).2 rfl

theorem dictGet_eraseKey_self {β : Type} (l : List (Nat × β)) (k : Nat) :
    dictGet (eraseKey l k) k = none :=
  dictGet_eq_none_iff.mpr (not_mem_keys_eraseKey l k)

theorem eraseKey_length_le {β : Type} (l : List (Nat × β)) (k : Nat) :
    (eraseKey l k).length ≤ l.length := by
  induction l with
  | nil => simp [eraseKey]
  | cons p rest ih =>
    by_cases h : p.1 = k
    · simp only [eraseKey, if_pos h]
      exact Nat.le_succ_of_le ih
    · simpa [eraseKey, h] using ih

theorem eraseKey_length_lt {β : Type} {l : List (Nat × β)} {k : Nat}
    (h : k ∈ keys l) : (eraseKey l k).length < l.length := by
  induction l with
  | nil => simp [keys_nil] at h
  | cons p rest ih =>
    by_cases hp : p.1 = k
    · simp only [eraseKey, if_pos hp, List.length_cons]
      exact Nat.lt_succ_of_le (eraseKey_length_le rest k)
    · rw [keys_cons, List.mem_cons] at h
      rcases h with h | h
      · exact absurd h.symm hp
      · simpa [eraseKey, hp] using ih h

theorem eraseKey_length_of_nodup {β : Type} {l : List (Nat × β)} {k : Nat}
    (hnd : NodupKeys l) (h : k ∈ keys l) :
    (eraseKey l k).length + 1 = l.length := by
  induction l with
  | nil => simp [keys_nil] at h
  | cons p rest ih =>
    rw [NodupKeys, keys_cons, List.nodup_cons] at hnd
    by_cases hp : p.1 = k
    · subst hp
      rw [eraseKey, if_pos rfl,
        eraseKey_eq_self_of_not_mem (l := rest) hnd.1]
      simp
    · rw [keys_cons, List.mem_cons] at h
      rcases h with h | h
      · exact absurd h.symm hp
      · simp only [eraseKey, if_neg hp, List.length_cons]
        rw [← ih hnd.2 h]

theorem nodup_eraseKey {β : Type} {l : List (Nat × β)} (k : Nat)
    (hnd : NodupKeys l) : NodupKeys (eraseKey l k) := by
  induction l with
  | nil => simpa [eraseKey] using hnd
  | cons p rest ih =>
    rw [NodupKeys, keys_cons, List.nodup_cons] at hnd
    by_cases hp : p.1 = k
    · simp only [eraseKey, if_pos hp]
      exact ih hnd.2
    · simp only [eraseKey, if_neg hp]
      rw [NodupKeys, keys_cons, List.nodup_cons]
      refine ⟨fun hmem => ?_, ih hnd.2⟩
      exact hnd.1 (mem_keys_eraseKey.mp hmem).1

theorem nodup_append_fresh {β : Type} {l : List (Nat × β)} {k : Nat} (v : β)
    (hnd : NodupKeys l) (h : k ∉ keys l) : NodupKeys (l ++ [(k, v)]) := by
  rw [NodupKeys, keys_append]
  apply List.Nodup.append hnd
  · simp [keys]
  · intro a ha hb
    simp only [keys, List.map_cons, List.map_nil, List.mem_singleton] at hb
    exact h (hb ▸ ha)

theorem dictInsert_of_not_mem {β : Type} {l : List (Nat × β)} {k : Nat}
    (v : β) (h : k ∉ keys l) : dictInsert l k v = l ++ [(k, v)] := by
  unfold dictInsert
  rw [dictGet_eq_none_iff.mpr h]
  rfl

theorem dictGet_isSome_iff {β : Type} {l : List (Nat × β)} {k : Nat} :
    (dictGet l k).isSome = true ↔ k ∈ keys l := by
  rcases hk : dictGet l k with _ | v
  · simp [dictGet_eq_none_iff.mp hk]
  · simp only [Option.isSome_some, true_iff]
    by_contra hmem
    rw [dictGet_eq_none_iff.mpr hmem] at hk
    cases hk

theorem mem_keys_of_dictGet {β : Type} {l : List (Nat × β)} {k : Nat} {v : β}
    (h : dictGet l k = some v) : k ∈ keys l := by
  apply dictGet_isSome_iff.mp
  rw [h]
  rfl

theorem dictGet_append_fresh {β : Type} {l : List (Nat × β)} {k : Nat}
    (v : β) (h : k ∉ keys l) : dictGet (l ++ [(k, v)]) k = some v := by
  induction l with
  | nil => simp [dictGet]
  | cons p rest ih =>
    rw [keys_cons, List.mem_cons] at h
    push_neg at h
    rw [List.cons_append, dictGet, if_neg (Ne.symm h.1)]
    exact ih h.2

theorem mem_keys_append_singleton {β : Type} {l : List (Nat × β)} {j k : Nat}
    (v : β) : j ∈ keys (l ++ [(k, v)]) ↔ j ∈ keys l ∨ j = k := by
  rw [keys_append, List.mem_append]
  simp [keys]

theorem keyAgree_erase {β γ : Type} {l : List (Nat × β)} {m : List (Nat × γ)}
    (k : Nat) (h : KeyAgree l m) : KeyAgree (eraseKey l k) (eraseKey m k) := by
  obtain ⟨h1, h2⟩ := h
  constructor
  · intro j hj
    rw [mem_keys_eraseKey] at hj ⊢
    exact ⟨h1 j hj.1, hj.2⟩
  · intro j hj
    rw [mem_keys_eraseKey] at hj ⊢
    exact ⟨h2 j hj.1, hj.2⟩

theorem keyAgree_append {β γ : Type} {l : List (Nat × β)} {m : List (Nat × γ)}
    {k : Nat} (v : β) (w : γ) (h : KeyAgree l m) :
    KeyAgree (l ++ [(k, v)]) (m ++ [(k, w)]) := by
  obtain ⟨h1, h2⟩ := h
  constructor
  · intro j hj
    rw [mem_keys_append_singleton] at hj ⊢
    rcases hj with hj | hj
    · exact Or.inl (h1 j hj)
    · exact Or.inr hj
  · intro j hj
    rw [mem_keys_append_singleton] at hj ⊢
    rcases hj with hj | hj
    · exact Or.inl (h2 j hj)
    · exact Or.inr hj

theorem keyAgree_readd {β γ : Type} {l : List (Nat × β)} {m : List (Nat × γ)}
    {k : Nat} (v : β) (h : KeyAgree l m) (hk : k ∈ keys l) :
    KeyAgree (eraseKey l k ++ [(k, v)]) m := by
  obtain ⟨h1, h2⟩ := h
  constructor
  · intro j hj
    rw [mem_keys_append_singleton, mem_keys_eraseKey] at hj
    rcases hj with ⟨hj, _⟩ | hj
    · exact h1 j hj
    · exact h1 j (hj ▸ hk)
  · intro j hj
    rw [mem_keys_append_singleton, mem_keys_eraseKey]
    by_cases hjk : j = k
    · exact Or.inr hjk
    · exact Or.inl ⟨h2 j hj, hjk⟩

namespace CacheService

theorem good_init (α : Type) (max ttl : Nat) : Good (init α max ttl) :=
  ⟨List.nodup_nil, Nat.zero_le _⟩

theorem get_cache_nodup {α : Type} {st : CacheService α} (now key : Nat)
    (hnd : NodupKeys st._cache) : NodupKeys ((st.get now key).2)._cache := by
  unfold get
  rcases hc : dictGet st._cache key with _ | v
  · exact hnd
  · by_cases hexp : now < (dictGet st._expiry key).getD 0
    · simp only [hexp, if_true]
      rw [dictInsert_of_not_mem v (not_mem_keys_eraseKey _ _)]
      exact nodup_append_fresh v (nodup_eraseKey key hnd)
        (not_mem_keys_eraseKey _ _)
    · simp only [hexp, if_false]
      exact nodup_eraseKey key hnd

theorem get_cache_length_le {α : Type} (st : CacheService α) (now key : Nat) :
    ((st.get now key).2)._cache.length ≤ st._cache.length := by
  unfold get
  rcases hc : dictGet st._cache key with _ | v
  · exact Nat.le_refl _
  · by_cases hexp : now < (dictGet st._expiry key).getD 0
    · simp only [hexp, if_true]
      rw [dictInsert_of_not_mem v (not_mem_keys_eraseKey _ _)]
      rw [List.length_append, List.length_singleton]
      exact eraseKey_length_lt (mem_keys_of_dictGet hc)
    · simp only [hexp, if_false]
      exact eraseKey_length_le _ _

theorem get_max_size {α : Type} (st : CacheService α) (now key : Nat) :
    ((st.get now key).2).max_size = st.max_size := by
  unfold get
  rcases dictGet st._cache key with _ | v
  · rfl
  · by_cases hexp : now < (dictGet st._expiry key).getD 0
    · simp only [hexp, if_true]
    · simp only [hexp, if_false]
      rfl

theorem setOutcome_max_size {α : Type} (st : CacheService α)
    (now key : Nat) (value : α) :
    (setOutcome st now key value).max_size = st.max_size := by
  unfold setOutcome set
  by_cases hlen : st.max_size ≤ (eraseKey st._cache key).length
  · simp only [_remove, hlen, if_true]
    rcases (eraseKey st._cache key).head? with _ | oldest <;> rfl
  · simp only [_remove, hlen, if_false]

theorem setOutcome_good {α : Type} {st : CacheService α}
    (now key : Nat) (value : α) (hg : Good st) :
    NodupKeys (setOutcome st now key value)._cache ∧
      (setOutcome st now key value)._cache.length ≤ st.max_size := by
  obtain ⟨hnd, hlen⟩ := hg
  have hnd1 : NodupKeys (eraseKey st._cache key) := nodup_eraseKey key hnd
  have hlen1 : (eraseKey st._cache key).length ≤ st.max_size :=
    Nat.le_trans (eraseKey_length_le _ _) hlen
  unfold setOutcome set
  by_cases hfull : st.max_size ≤ (eraseKey st._cache key).length
  · simp only [_remove, hfull, if_true]
    rcases hd : (eraseKey st._cache key).head? with _ | oldest
    · exact ⟨hnd1, hlen1⟩
    · dsimp only
      have hmem : oldest.1 ∈ keys (eraseKey st._cache key) := by
        rcases hcl : eraseKey st._cache key with _ | ⟨p, rest⟩
        · rw [hcl] at hd
          cases hd
        · rw [hcl] at hd
          injection hd with hd
          rw [← hd, keys_cons]
          exact List.mem_cons_self _ _
      have hnd2 : NodupKeys (eraseKey (eraseKey st._cache key) oldest.1) :=
        nodup_eraseKey _ hnd1
      have hfresh : key ∉ keys (eraseKey (eraseKey st._cache key) oldest.1) := by
        intro hk
        exact not_mem_keys_eraseKey st._cache key (mem_keys_eraseKey.mp hk).1
      constructor
      · rw [dictInsert_of_not_mem value hfresh]
        exact nodup_append_fresh value hnd2 hfresh
      · rw [dictInsert_of_not_mem value hfresh, List.length_append,
          List.length_singleton]
        have : (eraseKey (eraseKey st._cache key) oldest.1).length <
            (eraseKey st._cache key).length := eraseKey_length_lt hmem
        omega
  · simp only [_remove, hfull, if_false]
    push_neg at hfull
    constructor
    · rw [dictInsert_of_not_mem value (not_mem_keys_eraseKey _ _)]
      exact nodup_append_fresh value hnd1 (not_mem_keys_eraseKey _ _)
    · rw [dictInsert_of_not_mem value (not_mem_keys_eraseKey _ _),
        List.length_append, List.length_singleton]
      omega

theorem foldl_remove_good {α : Type} (ks : List Nat) (st : CacheService α)
    (hnd : NodupKeys st._cache) :
    NodupKeys ((ks.foldl (fun s k => s._remove k) st))._cache ∧
      ((ks.foldl (fun s k => s._remove k) st))._cache.length ≤
        st._cache.length ∧
      ((ks.foldl (fun s k => s._remove k) st)).max_size = st.max_size := by
  induction ks generalizing st with
  | nil => exact ⟨hnd, Nat.le_refl _, rfl⟩
  | cons k rest ih =>
    simp only [List.foldl_cons]
    obtain ⟨h1, h2, h3⟩ := ih (st._remove k) (nodup_eraseKey k hnd)
    exact ⟨h1, Nat.le_trans h2 (eraseKey_length_le _ _), h3⟩

theorem step_good {α : Type} {st : CacheService α} (op : Op α)
    (hg : Good st) : Good (step st op) ∧ (step st op).max_size = st.max_size := by
  rcases op with ⟨now, key⟩ | ⟨now, key, value⟩ | now | _
  · have hm : (step st (Op.get now key)).max_size = st.max_size :=
      get_max_size st now key
    have hlen : (step st (Op.get now key))._cache.length ≤ st._cache.length :=
      get_cache_length_le st now key
    have hnd : NodupKeys (step st (Op.get now key))._cache :=
      get_cache_nodup now key hg.1
    exact ⟨⟨hnd, by rw [hm]; exact Nat.le_trans hlen hg.2⟩, hm⟩
  · have h := setOutcome_good now key value hg
    have hm := setOutcome_max_size st now key value
    have hs : step st (Op.set now key value) = setOutcome st now key value := rfl
    rw [hs]
    exact ⟨⟨h.1, by rw [hm]; exact h.2⟩, hm⟩
  · have h := foldl_remove_good (expiredKeys st._expiry now) st hg.1
    have hs : step st (Op.cleanup now) =
        (expiredKeys st._expiry now).foldl (fun s k => s._remove k) st := rfl
    rw [hs]
    exact ⟨⟨h.1, by rw [h.2.2]; exact Nat.le_trans h.2.1 hg.2⟩, h.2.2⟩
  · exact ⟨⟨List.nodup_nil, Nat.zero_le _⟩, rfl⟩

theorem run_good {α : Type} (ops : List (Op α)) (st : CacheService α)
    (hg : Good st) :
    Good (run st ops) ∧ (run st ops).max_size = st.max_size := by
  induction ops generalizing st with
  | nil => exact ⟨hg, rfl⟩
  | cons op rest ih =>
    obtain ⟨h1, h2⟩ := step_good op hg
    obtain ⟨h3, h4⟩ := ih (step st op) h1
    refine ⟨h3, ?_⟩
    show (run (step st op) rest).max_size = st.max_size
    rw [h4, h2]

/-- Running `set` on a full cache with a fresh key returns normally and
evicts exactly the head of the `OrderedDict` — the least-recently-used
entry — keeping the rest in order and appending the new entry at the
most-recently-used end. -/
theorem set_at_capacity_evicts_head {α : Type} {st : CacheService α}
    (now k : Nat) (v : α)
    (hnd : NodupKeys st._cache)
    (hfresh : dictGet st._cache k = none)
    (hcap : st._cache.length = st.max_size)
    (hmax : 1 ≤ st.max_size) :
    ∃ st', st.set now k v = .ok st' ∧
      st'._cache = st._cache.tail ++ [(k, v)] := by
  have hkmem : k ∉ keys st._cache := dictGet_eq_none_iff.mp hfresh
  have hcache1 : eraseKey st._cache k = st._cache :=
    eraseKey_eq_self_of_not_mem hkmem
  rcases hc : st._cache with _ | ⟨hd, tl⟩
  · rw [hc] at hcap
    simp only [List.length_nil] at hcap
    omega
  · have hndc : NodupKeys (hd :: tl) := hc ▸ hnd
    have hhdtl : hd.1 ∉ keys tl := by
      rw [NodupKeys, keys_cons, List.nodup_cons] at hndc
      exact hndc.1
    have hktl : k ∉ keys tl := by
      rw [hc, keys_cons, List.mem_cons] at hkmem
      push_neg at hkmem
      exact hkmem.2
    have herase2 : eraseKey (hd :: tl) hd.1 = tl := by
      rw [eraseKey, if_pos rfl, eraseKey_eq_self_of_not_mem hhdtl]
    unfold set _remove
    rw [hcache1, hc]
    rw [if_pos (by rw [← hc, hcap])]
    simp only [List.head?_cons]
    rw [herase2, dictInsert_of_not_mem v hktl]
    exact ⟨_, rfl, rfl⟩

end CacheService

theorem get_sameKeys {α : Type} {st : CacheService α} (now key : Nat)
    (h : CacheService.SameKeys st) : CacheService.SameKeys (st.get now key).2 := by
  unfold CacheService.get
  rcases hv : dictGet st._cache key with _ | v
  · exact h
  · by_cases hlive : now < (dictGet st._expiry key).getD 0
    · simp only [hlive, if_true]
      show KeyAgree (dictInsert (eraseKey st._cache key) key v) st._expiry
      rw [dictInsert_of_not_mem _ (not_mem_keys_eraseKey _ _)]
      exact keyAgree_readd _ h (mem_keys_of_dictGet hv)
    · simp only [hlive, if_false]
      exact keyAgree_erase key h

theorem setOutcome_sameKeys {α : Type} {st : CacheService α}
    (now key : Nat) (v : α) (h : CacheService.SameKeys st) :
    CacheService.SameKeys (CacheService.setOutcome st now key v) := by
  unfold CacheService.setOutcome CacheService.set
  by_cases hfull : st.max_size ≤ (eraseKey st._cache key).length
  · simp only [CacheService._remove, hfull, if_true]
    rcases hd : (eraseKey st._cache key).head? with _ | oldest
    · exact keyAgree_erase key h
    · dsimp only
      show KeyAgree
        (dictInsert (eraseKey (eraseKey st._cache key) oldest.1) key v)
        (dictInsert (eraseKey (eraseKey st._expiry key) oldest.1) key
          (now + st.expiration_seconds))
      have hfr1 : key ∉ keys (eraseKey (eraseKey st._cache key) oldest.1) :=
        fun hk => not_mem_keys_eraseKey st._cache key (mem_keys_eraseKey.mp hk).1
      have hfr2 : key ∉ keys (eraseKey (eraseKey st._expiry key) oldest.1) :=
        fun hk => not_mem_keys_eraseKey st._expiry key (mem_keys_eraseKey.mp hk).1
      rw [dictInsert_of_not_mem _ hfr1, dictInsert_of_not_mem _ hfr2]
      exact keyAgree_append _ _ (keyAgree_erase _ (keyAgree_erase _ h))
  · simp only [CacheService._remove, hfull, if_false]
    show KeyAgree (dictInsert (eraseKey st._cache key) key v)
      (dictInsert (eraseKey st._expiry key) key (now + st.expiration_seconds))
    rw [dictInsert_of_not_mem _ (not_mem_keys_eraseKey _ _),
      dictInsert_of_not_mem _ (not_mem_keys_eraseKey _ _)]
    exact keyAgree_append _ _ (keyAgree_erase _ h)

theorem foldl_remove_sameKeys {α : Type} (ks : List Nat)
    (st : CacheService α) (h : CacheService.SameKeys st) :
    CacheService.SameKeys (ks.foldl (fun s k => s._remove k) st) := by
  induction ks generalizing st with
  | nil => exact h
  | cons k rest ih =>
    simp only [List.foldl_cons]
    exact ih _ (keyAgree_erase k h)

/-! ### Claim C4 — capacity bound and LRU eviction -/

/-- C4: for every sequence of public operations on a cache configured
with `max_size ≥ 1`, the number of entries held never exceeds
`max_size`; and when a put with a fresh key occurs while the cache is at
capacity, it completes normally and the entry evicted is exactly the
least-recently-used one (the `OrderedDict` head, where both `put` and a
live `get` move a key to the most-recently-used end), regardless of its
expiry. -/
theorem claim_C4_capacity_bound_and_lru_eviction (α : Type) (max ttl : Nat)
    (hmax : 1 ≤ max) :
    (∀ ops : List (CacheService.Op α),
       ((CacheService.init α max ttl).run ops).size ≤ max) ∧
    (∀ (ops : List (CacheService.Op α)) (now k : Nat) (v : α),
       dictGet ((CacheService.init α max ttl).run ops)._cache k = none →
       ((CacheService.init α max ttl).run ops).size = max →
       ∃ st', ((CacheService.init α max ttl).run ops).set now k v = .ok st' ∧
         st'._cache =
           ((CacheService.init α max ttl).run ops)._cache.tail ++ [(k, v)]) := by
  have hrun : ∀ ops : List (CacheService.Op α),
      CacheService.Good ((CacheService.init α max ttl).run ops) ∧
        ((CacheService.init α max ttl).run ops).max_size = max :=
    fun ops => CacheService.run_good ops _ (CacheService.good_init α max ttl)
  constructor
  · intro ops
    obtain ⟨⟨_, hlen⟩, hm⟩ := hrun ops
    have hlen' : ((CacheService.init α max ttl).run ops).size ≤
        ((CacheService.init α max ttl).run ops).max_size := hlen
    rw [hm] at hlen'
    exact hlen'
  · intro ops now k v hfresh hcap
    obtain ⟨⟨hnd, _⟩, hm⟩ := hrun ops
    exact CacheService.set_at_capacity_evicts_head now k v hnd hfresh
      (by rw [hm]; exact hcap) (by rw [hm]; exact hmax)

/-- Witness for C4 at a concrete cache of capacity 2 filled by two puts:
the bound holds and a third put of a fresh key evicts the head entry. -/
theorem claim_C4_witness :
    ((CacheService.init Nat 2 10).run
      [CacheService.Op.set 0 1 10, CacheService.Op.set 0 2 20]).size ≤ 2 ∧
    (∃ st', ((CacheService.init Nat 2 10).run
        [CacheService.Op.set 0 1 10, CacheService.Op.set 0 2 20]).set 1 3 30 =
          .ok st' ∧
      st'._cache =
        ((CacheService.init Nat 2 10).run
          [CacheService.Op.set 0 1 10, CacheService.Op.set 0 2 20])._cache.tail
          ++ [(3, 30)]) :=
  ⟨(claim_C4_capacity_bound_and_lru_eviction Nat 2 10 (by decide)).1
     [CacheService.Op.set 0 1 10, CacheService.Op.set 0 2 20],
   (claim_C4_capacity_bound_and_lru_eviction Nat 2 10 (by decide)).2
     [CacheService.Op.set 0 1 10, CacheService.Op.set 0 2 20] 1 3 30
     (by decide) (by decide)⟩

/-! ### Claim C5 — capacity zero -/

/-- C5 counterexample: with `max_size = 0`, the very first put (on the
empty cache) does not complete without crashing — `next(iter(...))` on
the empty `OrderedDict` raises `StopIteration` (the `.error` outcome),
contradicting the claim that every put completes. -/
theorem claim_C5_counterexample :
    (CacheService.init Nat 0 3600).set 0 1 5 =
      .error (CacheService.init Nat 0 3600) := rfl

/-- C5 (amended): with `max_size = 0`, a put on the empty cache raises
`StopIteration` out of `next(iter(self._cache))` instead of completing;
the cache still holds no entries at the raise, and a get of the key
still returns absent. -/
theorem claim_C5_amended (α : Type) (ttl now now' k : Nat) (v : α) :
    (CacheService.init α 0 ttl).set now k v =
      .error (CacheService.init α 0 ttl) ∧
    (CacheService.init α 0 ttl).size = 0 ∧
    ((CacheService.init α 0 ttl).get now' k).1 = none :=
  ⟨rfl, rfl, rfl⟩

/-! ### Claim C6 — time-based expiry on `get` -/

/-- C6: a put stores the absolute expiry `put_time + ttl`; and once
`now` is at or past the stored expiry of a present key, `get` returns
absent and lazily evicts the entry, so the subsequent `size()` is one
smaller and the key is gone. -/
theorem claim_C6_expired_get_evicts (α : Type) :
    (∀ (st : CacheService α) (now key : Nat) (v : α)
       (st' : CacheService α),
       st.set now key v = .ok st' →
       dictGet st'._expiry key = some (now + st.expiration_seconds)) ∧
    (∀ (st : CacheService α) (now key e : Nat),
       NodupKeys st._cache →
       key ∈ keys st._cache →
       dictGet st._expiry key = some e →
       e ≤ now →
       (st.get now key).1 = none ∧
       (st.get now key).2.size + 1 = st.size ∧
       dictGet ((st.get now key).2)._cache key = none) := by
  constructor
  · intro st now key v st' h
    unfold CacheService.set at h
    by_cases hfull :
        st.max_size ≤ ((st._remove key))._cache.length
    · rw [if_pos hfull] at h
      rcases hd : ((st._remove key))._cache.head? with _ | oldest
      · rw [hd] at h
        cases h
      · rw [hd] at h
        injection h with h
        subst h
        have hfresh : key ∉ keys (eraseKey (eraseKey st._expiry key) oldest.1) := by
          intro hk
          exact not_mem_keys_eraseKey st._expiry key (mem_keys_eraseKey.mp hk).1
        show dictGet (dictInsert (eraseKey (eraseKey st._expiry key) oldest.1)
          key (now + st.expiration_seconds)) key = _
        rw [dictInsert_of_not_mem _ hfresh, dictGet_append_fresh _ hfresh]
    · rw [if_neg hfull] at h
      injection h with h
      subst h
      show dictGet (dictInsert (eraseKey st._expiry key)
        key (now + st.expiration_seconds)) key = _
      rw [dictInsert_of_not_mem _ (not_mem_keys_eraseKey _ _),
        dictGet_append_fresh _ (not_mem_keys_eraseKey _ _)]
  · intro st now key e hnd hmem hexp hpast
    have hval : (dictGet st._cache key).isSome = true :=
      dictGet_isSome_iff.mpr hmem
    rcases hv : dictGet st._cache key with _ | v
    · rw [hv] at hval
      cases hval
    · have hnotlive : ¬ now < (dictGet st._expiry key).getD 0 := by
        rw [hexp]
        simpa using hpast
      have hgoal : st.get now key = (none, st._remove key) := by
        unfold CacheService.get
        rw [hv]
        dsimp only
        rw [if_neg hnotlive]
      rw [hgoal]
      exact ⟨rfl, eraseKey_length_of_nodup hnd hmem,
        dictGet_eraseKey_self _ _⟩

/-- Witness for C6: a put at time 0 with ttl 5 stores expiry 5; a get at
time 5 on that entry returns absent and shrinks the size from 1 to 0. -/
theorem claim_C6_witness :
    dictGet (⟨10, 5, [(1, 99)], [(1, 5)]⟩ : CacheService Nat)._expiry 1 =
      some (0 + 5) ∧
    ((⟨10, 5, [(1, 99)], [(1, 5)]⟩ : CacheService Nat).get 5 1).1 = none ∧
    ((⟨10, 5, [(1, 99)], [(1, 5)]⟩ : CacheService Nat).get 5 1).2.size + 1 =
      (⟨10, 5, [(1, 99)], [(1, 5)]⟩ : CacheService Nat).size ∧
    dictGet (((⟨10, 5, [(1, 99)], [(1, 5)]⟩ : CacheService Nat).get 5 1).2)._cache
      1 = none :=
  ⟨(claim_C6_expired_get_evicts Nat).1 (CacheService.init Nat 10 5) 0 1 99
     ⟨10, 5, [(1, 99)], [(1, 5)]⟩ rfl,
   (claim_C6_expired_get_evicts Nat).2 ⟨10, 5, [(1, 99)], [(1, 5)]⟩ 5 1 5
     (by decide) (by decide) (by decide) (by decide)⟩

/-! ### Claim C7 — `get` refreshes recency, not the expiry deadline -/

/-- C7: for a key present and not expired, `get` returns the stored
record and moves the key to the most-recently-used (last) position of
the `OrderedDict`, while the expiry dict is left entirely unchanged —
the deadline is set only by `put`. -/
theorem claim_C7_get_preserves_expiry {α : Type}
    (st : CacheService α) (now key : Nat) (value : α) (e : Nat)
    (hval : dictGet st._cache key = some value)
    (hexp : dictGet st._expiry key = some e)
    (hlive : now < e) :
    st.get now key =
      (some value,
       { st with _cache := eraseKey st._cache key ++ [(key, value)] }) := by
  have hlive' : now < (dictGet st._expiry key).getD 0 := by
    rw [hexp]
    simpa using hlive
  unfold CacheService.get
  rw [hval]
  simp only [hlive', if_true]
  rw [dictInsert_of_not_mem value (not_mem_keys_eraseKey _ _)]

/-- Witness for C7: a live hit at time 3 on an entry expiring at 5
returns the record, moves it last, and leaves `_expiry` untouched. -/
theorem claim_C7_witness :
    (⟨10, 5, [(1, 99), (2, 88)], [(1, 5), (2, 7)]⟩ : CacheService Nat).get 3 1 =
      (some 99, ⟨10, 5, [(2, 88), (1, 99)], [(1, 5), (2, 7)]⟩) :=
  claim_C7_get_preserves_expiry
    (⟨10, 5, [(1, 99), (2, 88)], [(1, 5), (2, 7)]⟩ : CacheService Nat)
    3 1 99 5 (by decide) (by decide) (by decide)

/-! ### Claim C10 — the two internal dicts always hold the same keys -/

/-- C10: after the constructor and after every public cache operation
(`get`, `set` — either outcome — `cleanup`, `clear`), the key set of
the value dict `_cache` and the key set of the expiry dict `_expiry`
are identical. -/
theorem claim_C10_cache_dicts_key_agreement (α : Type) :
    (∀ max ttl : Nat, CacheService.SameKeys (CacheService.init α max ttl)) ∧
    (∀ (st : CacheService α) (now key : Nat) (v : α),
       CacheService.SameKeys st →
       CacheService.SameKeys (st.get now key).2 ∧
       CacheService.SameKeys (CacheService.setOutcome st now key v) ∧
       CacheService.SameKeys (st.cleanup now).2 ∧
       CacheService.SameKeys st.clear) := by
  constructor
  · intro max ttl
    exact ⟨fun k hk => absurd hk (List.not_mem_nil k),
           fun k hk => absurd hk (List.not_mem_nil k)⟩
  · intro st now key v h
    refine ⟨get_sameKeys now key h, setOutcome_sameKeys now key v h,
      foldl_remove_sameKeys _ st h,
      ⟨fun k hk => absurd hk (List.not_mem_nil k),
       fun k hk => absurd hk (List.not_mem_nil k)⟩⟩

/-- Witness for C10 on a concrete two-entry state (one entry already
expired at time 6, so `get` evicts and `cleanup` removes). -/
theorem claim_C10_witness :
    CacheService.SameKeys ((⟨10, 5, [(1, 99), (2, 88)], [(1, 5), (2, 7)]⟩ :
      CacheService Nat).get 6 1).2 ∧
    CacheService.SameKeys (CacheService.setOutcome
      (⟨10, 5, [(1, 99), (2, 88)], [(1, 5), (2, 7)]⟩ : CacheService Nat)
      6 1 77) ∧
    CacheService.SameKeys ((⟨10, 5, [(1, 99), (2, 88)], [(1, 5), (2, 7)]⟩ :
      CacheService Nat).cleanup 6).2 ∧
    CacheService.SameKeys (⟨10, 5, [(1, 99), (2, 88)], [(1, 5), (2, 7)]⟩ :
      CacheService Nat).clear :=
  (claim_C10_cache_dicts_key_agreement Nat).2
    (⟨10, 5, [(1, 99), (2, 88)], [(1, 5), (2, 7)]⟩ : CacheService Nat)
    6 1 77 (by decide)

/-! ### Helpers for the handler theorems -/

theorem set_isOk_of_max_pos {α : Type} (st : CacheService α)
    (now k : Nat) (v : α) (hmax : 1 ≤ st.max_size) :
    ∃ st', st.set now k v = .ok st' := by
  unfold CacheService.set
  by_cases hfull : st.max_size ≤ (eraseKey st._cache k).length
  · simp only [CacheService._remove, hfull, if_true]
    rcases hc : eraseKey st._cache k with _ | ⟨hd, tl⟩
    · rw [hc] at hfull
      simp only [List.length_nil, Nat.le_zero] at hfull
      omega
    · exact ⟨_, rfl⟩
  · simp only [CacheService._remove, hfull, if_false]
    exact ⟨_, rfl⟩

theorem translate_text_of_api_error {e text source : String}
    (hsrc : source ≠ "en") :
    translate_text (.error e) text source "en" =
      "[Translation failed: " ++ e ++ "]" := by
  unfold translate_text
  rw [if_neg hsrc]

/-- On the pass-through branch, `handle_message` has no effect at all. -/
theorem handle_message_passthrough (env : BotEnv) (msg : InboundMsg)
    (api : Except String String) (send : Except String Nat) (now : Nat)
    (hcond : ¬ (msg.lang_code ≠ "en" ∧ env.threshold ≤ msg.confidence)) :
    handle_message env msg api send now =
      ⟨false, [], false, false, false, env.db, env.cache, none⟩ := by
  unfold handle_message
  rw [if_neg hcond]

/-- On the proceed branch, `handle_message` always invokes the
translator, whatever the collaborators do afterwards. -/
theorem handle_message_proceed_translatorCalled (env : BotEnv)
    (msg : InboundMsg) (api : Except String String)
    (send : Except String Nat) (now : Nat)
    (hcond : msg.lang_code ≠ "en" ∧ env.threshold ≤ msg.confidence) :
    (handle_message env msg api send now).translatorCalled = true := by
  unfold handle_message
  rw [if_pos hcond]
  rcases send with e | sid
  · rfl
  · dsimp only
    repeat' split
    all_goals rfl

/-! ### Claim C1 — reply-path lookup never falls back to the store -/

/-- C1: whenever a cache service exists (`bot.py` always installs one),
the reply-path resolution consults only the cache — zero store lookups
and zero backfills under every state and key, by the shape of the
`if cache_service: ... else: <database>` branching — so a cache miss
with the record present in the store resolves to nothing, while the
spec-described read-through lookup (`resolveReplyRecordSpec`) finds the
record; only the dead else-branch contains the backfill call. -/
theorem claim_C1_store_fallback_unreachable :
    (∀ (c : CacheService TranslationInfo) (db : List StoredTranslation)
       (dbp : Bool) (now id : Nat),
       (resolve_reply_record ⟨true, dbp, c, db⟩ now id).storeCalls = 0 ∧
       (resolve_reply_record ⟨true, dbp, c, db⟩ now id).cacheBackfills = 0 ∧
       (resolve_reply_record ⟨true, dbp, c, db⟩ now id).translation_info =
         (c.get now id).1) ∧
    ((resolve_reply_record sampleReplyEnv 10 42).translation_info = none ∧
     (resolve_reply_record sampleReplyEnv 10 42).storeCalls = 0 ∧
     get_translation_by_msg_id sampleReplyEnv.db 42 = some sampleRow ∧
     (resolveReplyRecordSpec sampleReplyEnv 10 42).translation_info =
       some (rowInfo sampleRow) ∧
     (resolveReplyRecordSpec sampleReplyEnv 10 42).cacheBackfills = 1) :=
  ⟨fun _ _ _ _ _ => ⟨rfl, rfl, rfl⟩, ⟨rfl, rfl, rfl, rfl, rfl⟩⟩

/-! ### Claim C3 — age-based deletion deletes nothing -/

/-- C3: the DELETE statement binds one parameter against zero slots (the
question mark sits inside the SQL string literal), so sqlite raises, the
except-branch returns 0, and no rows are removed — here on a row 10 days
old with a 7-day window, where the intended contract
(`deleteOlderThanSpec`) removes the row and returns 1. -/
theorem claim_C3_delete_old_translations_is_noop :
    oldRow.timestamp < 10 * secondsPerDay - 7 * secondsPerDay ∧
    delete_old_translations [oldRow] (10 * secondsPerDay) 7 = (0, [oldRow]) ∧
    deleteOlderThanSpec [oldRow] (10 * secondsPerDay) 7 = (1, []) := by
  refine ⟨by decide, rfl, ?_⟩
  decide

/-! ### Claim C2 — translator failure on the forward path -/

/-- C2 counterexample: on a confidently-detected Spanish message whose
Groq call fails, the handler still sends an outbound message (carrying
the failure sentinel), still creates a store record, and still populates
the cache — the relay does not end in a no-record, no-outbound failure
state. -/
theorem claim_C2_counterexample :
    (handle_message sampleEnv sampleMsgEs (.error "boom") (.ok 100) 42).sent =
      [⟨7, "[Translation failed: boom]", 1, true⟩] ∧
    (handle_message sampleEnv sampleMsgEs (.error "boom") (.ok 100) 42).db =
      [⟨100, 1, 7, 5, "es", "hola", "[Translation failed: boom]", 42⟩] ∧
    (handle_message sampleEnv sampleMsgEs (.error "boom") (.ok 100) 42).cachePut
      = true ∧
    (handle_message sampleEnv sampleMsgEs (.error "boom") (.ok 100) 42).errorReply
      = none :=
  ⟨rfl, rfl, rfl, rfl⟩

/-- C2 (amended): when the Groq call fails on a qualifying message,
`translate_text` swallows the exception and returns the sentinel
`[Translation failed: e]`; `handle_message` then proceeds exactly as on
success — the sentinel (which surfaces the failure reason to the sender
in-thread) is sent as the forwarded message, a record containing the
sentinel is stored, and the cache is populated — instead of ending in a
`Failed` state with no record and no outbound message. The apology
except-branch fires only when a later step (the transport send)
raises. -/
theorem claim_C2_amended (env : BotEnv) (msg : InboundMsg) (e : String)
    (sent_id now : Nat)
    (hlang : msg.lang_code ≠ "en")
    (hconf : env.threshold ≤ msg.confidence)
    (hdb : env.db_present = true)
    (hio : env.dbError = false)
    (hcache : env.cache_present = true)
    (hmax : 1 ≤ env.cache.max_size) :
    ∃ cache',
      env.cache.set now sent_id
        ⟨msg.message_id, msg.lang_code, msg.chat_id, msg.user_id, msg.text,
         "[Translation failed: " ++ e ++ "]"⟩ = .ok cache' ∧
      handle_message env msg (.error e) (.ok sent_id) now =
        ⟨true,
         [⟨msg.chat_id, "[Translation failed: " ++ e ++ "]",
           msg.message_id, true⟩],
         true, true, true,
         env.db ++ [⟨sent_id, msg.message_id, msg.chat_id, msg.user_id,
           msg.lang_code, msg.text, "[Translation failed: " ++ e ++ "]", now⟩],
         cache', none⟩ := by
  obtain ⟨thr, dbp, cp, dbe, db, cache⟩ := env
  have hdb' : dbp = true := hdb
  have hio' : dbe = false := hio
  have hcache' : cp = true := hcache
  subst hdb' hio' hcache'
  obtain ⟨cache', hset⟩ := set_isOk_of_max_pos cache now sent_id
    ⟨msg.message_id, msg.lang_code, msg.chat_id, msg.user_id, msg.text,
     "[Translation failed: " ++ e ++ "]"⟩ hmax
  refine ⟨cache', hset, ?_⟩
  unfold handle_message
  rw [if_pos ⟨hlang, hconf⟩]
  simp only [translate_text_of_api_error hlang]
  unfold store_translation
  simp only [if_true, if_false, Bool.false_eq_true]
  rw [hset]

/-- Witness for C2 (amended) at the concrete Spanish message with a
failing translator. -/
theorem claim_C2_witness :
    ∃ cache',
      sampleEnv.cache.set 42 100
        ⟨1, "es", 7, 5, "hola", "[Translation failed: boom]"⟩ = .ok cache' ∧
      handle_message sampleEnv sampleMsgEs (.error "boom") (.ok 100) 42 =
        ⟨true, [⟨7, "[Translation failed: boom]", 1, true⟩],
         true, true, true,
         [⟨100, 1, 7, 5, "es", "hola", "[Translation failed: boom]", 42⟩],
         cache', none⟩ :=
  claim_C2_amended sampleEnv sampleMsgEs "boom" 100 42 (by decide) (by decide)
    rfl rfl rfl (by decide)

/-! ### Claim C8 — pass-through exactly on pivot language or low
confidence -/

/-- C8: the forward path leaves everything untouched (no translator
call, nothing sent, store and cache unchanged) exactly when the detected
language is the pivot `"en"` or the confidence is below the threshold;
otherwise it invokes the translator. -/
theorem claim_C8_passthrough_rule (env : BotEnv) (msg : InboundMsg)
    (api : Except String String) (send : Except String Nat) (now : Nat) :
    (((handle_message env msg api send now).translatorCalled = false ∧
      (handle_message env msg api send now).sent = [] ∧
      (handle_message env msg api send now).db = env.db ∧
      (handle_message env msg api send now).cache = env.cache) ↔
     (msg.lang_code = "en" ∨ msg.confidence < env.threshold)) ∧
    (msg.lang_code ≠ "en" → env.threshold ≤ msg.confidence →
      (handle_message env msg api send now).translatorCalled = true) := by
  by_cases hcond : msg.lang_code ≠ "en" ∧ env.threshold ≤ msg.confidence
  · constructor
    · apply iff_of_false
      · intro hr
        have hc := handle_message_proceed_translatorCalled env msg api send
          now hcond
        rw [hr.1] at hc
        cases hc
      · rintro (he | hlt)
        · exact hcond.1 he
        · exact absurd hcond.2 (not_le.mpr hlt)
    · intro _ _
      exact handle_message_proceed_translatorCalled env msg api send now hcond
  · have hpass := handle_message_passthrough env msg api send now hcond
    constructor
    · apply iff_of_true
      · rw [hpass]
        exact ⟨rfl, rfl, rfl, rfl⟩
      · rcases not_and_or.mp hcond with h | h
        · exact Or.inl (not_not.mp h)
        · exact Or.inr (not_le.mp h)
    · intro h1 h2
      exact absurd ⟨h1, h2⟩ hcond

/-- Witness for C8 on the concrete Spanish message: not a pass-through,
and the translator is invoked. -/
theorem claim_C8_witness :
    (handle_message sampleEnv sampleMsgEs (.ok "hello")
      (.ok 100) 42).translatorCalled = true :=
  (claim_C8_passthrough_rule sampleEnv sampleMsgEs (.ok "hello") (.ok 100)
    42).2 (by decide) (by decide)

/-! ### Claim C9 — cache population strictly follows a successful
store write -/

/-- C9: on the forward path the cache is populated only when the store
save has returned success, and when the store save fails the cache is
left untouched and the handler finishes without raising (no error reply
is produced — the forwarded message was already sent). -/
theorem claim_C9_cache_put_only_after_store_success (env : BotEnv)
    (msg : InboundMsg) (api : Except String String)
    (send : Except String Nat) (now : Nat) :
    ((handle_message env msg api send now).cachePut = true →
      (handle_message env msg api send now).storeSucceeded = true) ∧
    ((handle_message env msg api send now).storeAttempted = true →
     (handle_message env msg api send now).storeSucceeded = false →
     (handle_message env msg api send now).cache = env.cache ∧
     (handle_message env msg api send now).errorReply = none) := by
  unfold handle_message
  split
  · rcases send with e | sid
    · exact ⟨fun h => Bool.noConfusion h, fun h _ => Bool.noConfusion h⟩
    · dsimp only
      split
      · split
        · split
          · split
            · exact ⟨fun _ => rfl, fun _ h2 => Bool.noConfusion h2⟩
            · exact ⟨fun h => Bool.noConfusion h,
                fun _ h2 => Bool.noConfusion h2⟩
          · exact ⟨fun _ => rfl, fun _ h2 => Bool.noConfusion h2⟩
        · exact ⟨fun h => Bool.noConfusion h, fun _ _ => ⟨rfl, rfl⟩⟩
      · exact ⟨fun h => Bool.noConfusion h, fun h _ => Bool.noConfusion h⟩
  · exact ⟨fun h => Bool.noConfusion h, fun h _ => Bool.noConfusion h⟩

/-- Witness for C9: with a failing database, the concrete run leaves the
cache untouched and produces no error reply; with a healthy database,
the concrete run that populates the cache indeed had a successful
store save. -/
theorem claim_C9_witness :
    ((handle_message sampleEnvDbFail sampleMsgEs (.ok "hello")
        (.ok 100) 42).cache = sampleEnvDbFail.cache ∧
     (handle_message sampleEnvDbFail sampleMsgEs (.ok "hello")
        (.ok 100) 42).errorReply = none) ∧
    (handle_message sampleEnv sampleMsgEs (.ok "hello")
      (.ok 100) 42).storeSucceeded = true :=
  ⟨(claim_C9_cache_put_only_after_store_success sampleEnvDbFail sampleMsgEs
      (.ok "hello") (.ok 100) 42).2 (by decide) (by decide),
   (claim_C9_cache_put_only_after_store_success sampleEnv sampleMsgEs
      (.ok "hello") (.ok 100) 42).1 (by decide)⟩

end TgRelay
